import Mathlib

/-!
Verification development for the poly-trader paper-trading ledger.

The definitions below are a shallow embedding of the Python source in
`poly-paper-trading-api`:

* `order_utils.py` — order placement (`_handle_buy_order`, `_handle_sell_order`),
  cancellation (`cancel_order_handler`), the batch processor
  (`process_open_orders_handler`) and its fill primitive
  (`_fill_order_at_limit_price`);
* `account_utils.py` — valuation (`update_account_value_handler`,
  `get_batch_market_prices_for_tokens`) and the transaction-replay audit
  (`audit_account_handler`);
* `strategy_utils.py` — strategy versioning (`update_strategy_handler`) and the
  entry rules of `process_strategy_handler`;
* `kalshi_utils.py` — the Kalshi batch processor
  (`process_kalshi_orders_handler` with `_fill_kalshi_order`).

Python `Decimal` values are modelled as `ℚ` (exact rational arithmetic), Python
`int` as `ℤ`.  The database session for a single account is modelled as an
explicit `LedgerState`; handlers that commit become state-transformers, and
handlers that raise-and-rollback return `Except` with the input state unchanged.
-/

deriving instance DecidableEq for Except

namespace PolyTrader

/-- `OrderSide` enum from `models/order.py`. -/
inductive OrderSide where
  | BUY
  | SELL
deriving DecidableEq, Repr

/-- `OrderStatus` enum from `models/order.py`. -/
inductive OrderStatus where
  | OPEN
  | FILLED
  | CANCELLED
deriving DecidableEq, Repr

/-- `Position` row from `models/position.py`: share count and aggregate cost basis. -/
structure Position where
  shares : ℤ
  total_cost : ℚ
deriving DecidableEq, Repr

/-- `Order` row from `models/order.py` (single-account model, so no account_id). -/
structure Order where
  order_id : ℕ
  price : ℚ
  size : ℤ
  side : OrderSide
  token_id : String
  status : OrderStatus
deriving DecidableEq, Repr

/-- `Transaction` row from `models/transaction.py`.  The list order in
`LedgerState.transactions` is the `executed_at` order (records are appended as
they are committed). -/
structure Transaction where
  token_id : String
  execution_price : ℚ
  side : OrderSide
  size : ℤ
deriving DecidableEq, Repr

/-- The database state of one account: `Account.balance`, its `Position` rows
(keyed by token id), its `Order` rows, its `Transaction` rows in execution-time
order, and its `AccountValue` snapshot rows. -/
structure LedgerState where
  balance : ℚ
  positions : List (String × Position)
  orders : List Order
  transactions : List Transaction
  snapshots : List ℚ
  next_order_id : ℕ
deriving DecidableEq, Repr

/-- Look up an association-list entry by key (`SELECT ... WHERE token_id = ...`). -/
def lookupTok {α : Type} : List (String × α) → String → Option α
  | [], _ => none
  | (k, w) :: t, tok => if k == tok then some w else lookupTok t tok

/-- Replace the value at a key (the `UPDATE` of a uniquely-keyed row), or
append the pair when absent (the `INSERT`). -/
def setTok {α : Type} : List (String × α) → String → α → List (String × α)
  | [], tok, v => [(tok, v)]
  | (k, w) :: t, tok, v =>
    if k == tok then (k, v) :: t else (k, w) :: setTok t tok v

/-- `_get_or_create_position` from `order_utils.py`: the existing row, or a
fresh zero row. -/
def getOrCreatePosition (s : LedgerState) (tok : String) : Position :=
  match lookupTok s.positions tok with
  | some p => p
  | none => { shares := 0, total_cost := 0 }

/-- `PlaceLimitOrderRequest` from `order_utils.py` (single account). -/
structure PlaceLimitOrderRequest where
  price : ℚ
  size : ℤ
  side : OrderSide
  token_id : String
deriving DecidableEq, Repr

/-- `PlaceLimitOrderResponse` from `order_utils.py`; `status` is the literal
string the handler returns ("filled" or "open"). -/
structure PlaceLimitOrderResponse where
  order_id : Option ℕ := none
  transaction_id : Option ℕ := none
  status : String
deriving DecidableEq, Repr

/-- `_handle_buy_order` from `order_utils.py` lines 146-215.  `marketPrice` is
the ask obtained from the price oracle before the handler runs. -/
def handleBuyOrder (req : PlaceLimitOrderRequest) (marketPrice : ℚ)
    (s : LedgerState) : Except String (PlaceLimitOrderResponse × LedgerState) :=
  let order_cost := req.price * (req.size : ℚ)
  if s.balance < order_cost then
    .error "Insufficient funds"
  else if marketPrice ≤ req.price then
    -- limit price >= market price: fill immediately at market price
    let execution_cost := marketPrice * (req.size : ℚ)
    let position := getOrCreatePosition s req.token_id
    let position' : Position :=
      { shares := position.shares + req.size,
        total_cost := position.total_cost + execution_cost }
    let txn : Transaction :=
      { token_id := req.token_id, execution_price := marketPrice,
        side := .BUY, size := req.size }
    .ok ({ transaction_id := some s.transactions.length, status := "filled" },
      { s with
        balance := s.balance - execution_cost,
        positions := setTok s.positions req.token_id position',
        transactions := s.transactions ++ [txn] })
  else
    -- reserve funds by deducting from the balance, create an OPEN order
    let order : Order :=
      { order_id := s.next_order_id, price := req.price, size := req.size,
        side := .BUY, token_id := req.token_id, status := .OPEN }
    .ok ({ order_id := some s.next_order_id, status := "open" },
      { s with
        balance := s.balance - order_cost,
        orders := s.orders ++ [order],
        next_order_id := s.next_order_id + 1 })

/-- `_handle_sell_order` from `order_utils.py` lines 218-294.  `marketPrice` is
the bid obtained from the price oracle before the handler runs. -/
def handleSellOrder (req : PlaceLimitOrderRequest) (marketPrice : ℚ)
    (s : LedgerState) : Except String (PlaceLimitOrderResponse × LedgerState) :=
  match lookupTok s.positions req.token_id with
  | none => .error "Insufficient shares"
  | some position =>
    if position.shares < req.size then
      .error "Insufficient shares"
    else if req.price ≤ marketPrice then
      -- limit price <= market price: fill immediately at market price
      let execution_proceeds := marketPrice * (req.size : ℚ)
      let cost_per_share :=
        if 0 < position.shares then position.total_cost / (position.shares : ℚ)
        else 0
      let cost_to_remove := cost_per_share * (req.size : ℚ)
      let position' : Position :=
        { shares := position.shares - req.size,
          total_cost := position.total_cost - cost_to_remove }
      let txn : Transaction :=
        { token_id := req.token_id, execution_price := marketPrice,
          side := .SELL, size := req.size }
      .ok ({ transaction_id := some s.transactions.length, status := "filled" },
        { s with
          balance := s.balance + execution_proceeds,
          positions := setTok s.positions req.token_id position',
          transactions := s.transactions ++ [txn] })
    else
      -- reserve shares by deducting from the position, create an OPEN order
      let position' : Position := { position with shares := position.shares - req.size }
      let order : Order :=
        { order_id := s.next_order_id, price := req.price, size := req.size,
          side := .SELL, token_id := req.token_id, status := .OPEN }
      .ok ({ order_id := some s.next_order_id, status := "open" },
        { s with
          positions := setTok s.positions req.token_id position',
          orders := s.orders ++ [order],
          next_order_id := s.next_order_id + 1 })

/-- `place_limit_order_handler` from `order_utils.py`: dispatch on side after
the oracle call. -/
def placeLimitOrder (req : PlaceLimitOrderRequest) (marketPrice : ℚ)
    (s : LedgerState) : Except String (PlaceLimitOrderResponse × LedgerState) :=
  match req.side with
  | .BUY => handleBuyOrder req marketPrice s
  | .SELL => handleSellOrder req marketPrice s

/-- `cancel_order_handler` from `order_utils.py` lines 329-397. -/
def cancelOrder (oid : ℕ) (s : LedgerState) : Except String LedgerState :=
  match s.orders.find? (fun o => o.order_id == oid) with
  | none => .error "Order not found"
  | some order =>
    if order.status ≠ OrderStatus.OPEN then
      .error "Cannot cancel order: only OPEN orders can be cancelled"
    else
      let s1 :=
        match order.side with
        | .BUY =>
          -- refund reserved funds
          { s with balance := s.balance + order.price * (order.size : ℚ) }
        | .SELL =>
          -- refund reserved shares
          match lookupTok s.positions order.token_id with
          | some p =>
            let p' : Position := { p with shares := p.shares + order.size }
            { s with positions := setTok s.positions order.token_id p' }
          | none => s
      .ok { s1 with orders :=
              s1.orders.map (fun o =>
                if o.order_id == oid then { o with status := .CANCELLED } else o) }

/-- The handler's rollback-on-error behaviour: an error leaves the database
unchanged. -/
def runCancelOrder (oid : ℕ) (s : LedgerState) : LedgerState :=
  match cancelOrder oid s with
  | .ok s2 => s2
  | .error _ => s

/-- The batched quote response of `get_batch_market_prices` in `order_utils.py`:
for each token, the optional BUY-side price (the bid) and the optional
SELL-side price (the ask); `none` for a token means no entry in the response. -/
def Quotes : Type := String → Option (Option ℚ × Option ℚ)

/-- `_fill_order_at_limit_price` from `order_utils.py` lines 598-669: fill a
resting order at its limit price.  For a BUY the reserved cash is consumed and
the position grows; for a SELL the proceeds are credited and — mirroring the
source's `pass` branch — the position's cost basis is left unchanged. -/
def fillOrderAtLimitPrice (order : Order) (s : LedgerState) : LedgerState :=
  let execution_price := order.price
  let s1 :=
    match order.side with
    | .BUY =>
      let position := getOrCreatePosition s order.token_id
      let position' : Position :=
        { shares := position.shares + order.size,
          total_cost := position.total_cost + execution_price * (order.size : ℚ) }
      { s with positions := setTok s.positions order.token_id position' }
    | .SELL =>
      -- shares were already deducted at placement; cost basis not adjusted
      { s with balance := s.balance + execution_price * (order.size : ℚ) }
  let txn : Transaction :=
    { token_id := order.token_id, execution_price := execution_price,
      side := order.side, size := order.size }
  { s1 with
    transactions := s1.transactions ++ [txn],
    orders := s1.orders.map (fun o =>
      if o.order_id == order.order_id then { o with status := .FILLED } else o) }

/-- The per-order body of the loop in `process_open_orders_handler`
(`order_utils.py` lines 523-579): decide from the quotes whether the order
fills, and return the updated state with the outcome tag. -/
def processOneOpenOrder (quotes : Quotes) (s : LedgerState) (order : Order) :
    LedgerState × String :=
  match quotes order.token_id with
  | none => (s, "skipped")
  | some (bid?, ask?) =>
    match order.side with
    | .BUY =>
      match ask? with
      | none => (s, "skipped")
      | some ask =>
        if ask ≤ order.price then (fillOrderAtLimitPrice order s, "filled")
        else (s, "skipped")
    | .SELL =>
      match bid? with
      | none => (s, "skipped")
      | some bid =>
        if order.price ≤ bid then (fillOrderAtLimitPrice order s, "filled")
        else (s, "skipped")

/-- The loop of `process_open_orders_handler` over the selected OPEN orders. -/
def processLoop (quotes : Quotes) (todo : List Order) (s : LedgerState) :
    LedgerState × List (ℕ × String) :=
  match todo with
  | [] => (s, [])
  | o :: rest =>
    let r1 := processOneOpenOrder quotes s o
    let r2 := processLoop quotes rest r1.1
    (r2.1, (o.order_id, r1.2) :: r2.2)

/-- `ProcessOpenOrdersResponse` from `order_utils.py`. -/
structure ProcessOpenOrdersResponse where
  total_orders_checked : ℕ
  orders_filled : ℕ
  orders_skipped : ℕ
  results : List (ℕ × String)
deriving DecidableEq, Repr

/-- `process_open_orders_handler` from `order_utils.py` lines 485-595: select
all OPEN orders, fetch one batch of quotes, and process each order. -/
def processOpenOrders (quotes : Quotes) (s : LedgerState) :
    LedgerState × ProcessOpenOrdersResponse :=
  let todo := s.orders.filter (fun o => o.status == OrderStatus.OPEN)
  let r := processLoop quotes todo s
  (r.1,
    { total_orders_checked := todo.length,
      orders_filled := (r.2.filter (fun p => p.2 == "filled")).length,
      orders_skipped := (r.2.filter (fun p => p.2 == "skipped")).length,
      results := r.2 })

/-- The fill-eligibility test applied by `process_open_orders_handler` to an
order already known to be OPEN: a quote entry must exist, the relevant side
must be present, and a BUY needs ask ≤ limit while a SELL needs bid ≥ limit. -/
def eligibleFill (quotes : Quotes) (o : Order) : Bool :=
  match quotes o.token_id with
  | none => false
  | some (bid?, ask?) =>
    match o.side with
    | .BUY =>
      match ask? with
      | none => false
      | some ask => ask ≤ o.price
    | .SELL =>
      match bid? with
      | none => false
      | some bid => o.price ≤ bid

/-- The Transaction row recorded by `_fill_order_at_limit_price` for an order
filled at its limit price. -/
def limitFillTxn (o : Order) : Transaction :=
  { token_id := o.token_id, execution_price := o.price,
    side := o.side, size := o.size }

/-- Add `d` to the share counter for `tok` in an association list, creating the
entry at `d` when absent (`dict.get(token_id, 0) + delta` in the source). -/
def bumpShares (l : List (String × ℤ)) (tok : String) (d : ℤ) :
    List (String × ℤ) :=
  match lookupTok l tok with
  | some v => setTok l tok (v + d)
  | none => l ++ [(tok, d)]

/-- One step of the replay loop in `audit_account_handler`
(`account_utils.py` lines 642-654): BUY subtracts `price × size` from the
running balance and adds `size` shares; SELL does the inverse. -/
def replayStep (acc : ℚ × List (String × ℤ)) (txn : Transaction) :
    ℚ × List (String × ℤ) :=
  match txn.side with
  | .BUY =>
    (acc.1 - txn.execution_price * (txn.size : ℚ),
      bumpShares acc.2 txn.token_id txn.size)
  | .SELL =>
    (acc.1 + txn.execution_price * (txn.size : ℚ),
      bumpShares acc.2 txn.token_id (-txn.size))

/-- `INITIAL_BALANCE` from `audit_account_handler`. -/
def INITIAL_BALANCE : ℚ := 10000

/-- `PositionDiscrepancy` from `account_utils.py`. -/
structure PositionDiscrepancy where
  token_id : String
  expected_shares : ℤ
  actual_shares : ℤ
  difference : ℤ
  is_correct : Bool
deriving DecidableEq, Repr

/-- `AuditAccountResponse` from `account_utils.py`. -/
structure AuditAccountResponse where
  initial_balance : ℚ
  expected_balance : ℚ
  actual_balance : ℚ
  balance_difference : ℚ
  balance_is_correct : Bool
  position_discrepancies : List PositionDiscrepancy
  all_positions_correct : Bool
  is_consistent : Bool
deriving DecidableEq, Repr

/-- `audit_account_handler` from `account_utils.py` lines 586-725: replay the
account's transactions in execution-time order starting from the fixed initial
balance, then compare against the live balance and positions. -/
def auditAccount (s : LedgerState) : AuditAccountResponse :=
  let actual := s.positions.map (fun p => (p.1, p.2.shares))
  let replayed := s.transactions.foldl replayStep (INITIAL_BALANCE, [])
  let expected_balance := replayed.1
  let expected_positions := replayed.2
  let balance_difference := s.balance - expected_balance
  let balance_is_correct : Bool := balance_difference == 0
  let all_token_ids :=
    (expected_positions.map (fun p => p.1) ++ actual.map (fun p => p.1)).dedup
  let discrepancies := all_token_ids.map (fun tok =>
    let e := (lookupTok expected_positions tok).getD 0
    let a := (lookupTok actual tok).getD 0
    ({ token_id := tok, expected_shares := e, actual_shares := a,
       difference := a - e, is_correct := a - e == 0 } : PositionDiscrepancy))
  let all_positions_correct := discrepancies.all (fun d => d.is_correct)
  { initial_balance := INITIAL_BALANCE,
    expected_balance := expected_balance,
    actual_balance := s.balance,
    balance_difference := balance_difference,
    balance_is_correct := balance_is_correct,
    position_discrepancies := discrepancies,
    all_positions_correct := all_positions_correct,
    is_consistent := balance_is_correct && all_positions_correct }

/-- The audit endpoint as a state transformer: it reads the database and
returns the report together with the (untouched) database state. -/
def auditAccountHandler (s : LedgerState) : AuditAccountResponse × LedgerState :=
  (auditAccount s, s)

/-- The live share count of the account for a token (0 when no Position row). -/
def actualShares (s : LedgerState) (tok : String) : ℤ :=
  match lookupTok s.positions tok with
  | some p => p.shares
  | none => 0

/-- Following the spec's words: the net cash flow of a transaction list
(SELL adds `price × size`, BUY subtracts it). -/
def specNetCash (txns : List Transaction) : ℚ :=
  (txns.map (fun t =>
    match t.side with
    | .BUY => -(t.execution_price * (t.size : ℚ))
    | .SELL => t.execution_price * (t.size : ℚ))).sum

/-- Following the spec's words: the net share flow of a transaction list for
one token (BUY adds `size`, SELL subtracts it). -/
def specNetShares (txns : List Transaction) (tok : String) : ℤ :=
  (txns.map (fun t =>
    if t.token_id = tok then
      match t.side with
      | .BUY => t.size
      | .SELL => -t.size
    else 0)).sum

/-- `get_batch_market_prices_for_tokens` from `account_utils.py` lines 109-148:
for each requested token, the midpoint when both sides are quoted, the single
available side otherwise, and no entry at all when neither side is quoted. -/
def getBatchMarketPricesForTokens (token_ids : List String)
    (oracle : String → Option ℚ × Option ℚ) : List (String × ℚ) :=
  token_ids.filterMap (fun tok =>
    match oracle tok with
    | (some buy_price, some sell_price) => some (tok, (buy_price + sell_price) / 2)
    | (some buy_price, none) => some (tok, buy_price)
    | (none, some sell_price) => some (tok, sell_price)
    | (none, none) => none)

/-- Following the spec's words: the mark price of an instrument is the midpoint
of bid and ask when both are available, the single available side when only
one is, and undefined when no quote is available. -/
def specMarkPrice : Option ℚ × Option ℚ → Option ℚ
  | (some bid, some ask) => some ((bid + ask) / 2)
  | (some bid, none) => some bid
  | (none, some ask) => some ask
  | (none, none) => none

/-- The open orders of the account (`status == OPEN`). -/
def openOrdersOf (s : LedgerState) : List Order :=
  s.orders.filter (fun o => o.status == OrderStatus.OPEN)

/-- Cash reserved by open BUY orders (`price * size` each), from
`update_account_value_handler`. -/
def reservedBuyCash (s : LedgerState) : ℚ :=
  (openOrdersOf s).foldl
    (fun acc o =>
      match o.side with
      | .BUY => acc + o.price * (o.size : ℚ)
      | .SELL => acc) 0

/-- Shares reserved by open SELL orders per token, from
`update_account_value_handler`. -/
def reservedSellShares (s : LedgerState) : List (String × ℤ) :=
  (openOrdersOf s).foldl
    (fun acc o =>
      match o.side with
      | .BUY => acc
      | .SELL => bumpShares acc o.token_id o.size) []

/-- Effective shares per token: live position shares plus shares reserved by
open SELL orders, from `update_account_value_handler`. -/
def effectiveShares (s : LedgerState) : List (String × ℤ) :=
  (reservedSellShares s).foldl
    (fun acc p => bumpShares acc p.1 p.2)
    (s.positions.map (fun p => (p.1, p.2.shares)))

/-- `update_account_value_handler` from `account_utils.py` lines 373-505:
reserved BUY cash plus marked-to-market effective shares (position shares plus
shares reserved by open SELL orders), appending one snapshot. -/
def updateAccountValue (oracle : String → Option ℚ × Option ℚ)
    (s : LedgerState) : ℚ × LedgerState :=
  let token_ids := ((effectiveShares s).filter (fun p => 0 < p.2)).map
    (fun p => p.1)
  let prices := getBatchMarketPricesForTokens token_ids oracle
  let total_position_value := (effectiveShares s).foldl
    (fun acc p =>
      if 0 < p.2 then
        match lookupTok prices p.1 with
        | some current_price => acc + current_price * (p.2 : ℚ)
        | none => acc
      else acc) 0
  let total_value := s.balance + reservedBuyCash s + total_position_value
  (total_value, { s with snapshots := s.snapshots ++ [total_value] })

/-- `StrategySide` enum used by `strategy_utils.py` (values "yes"/"no"). -/
inductive StrategySide where
  | YES
  | NO
deriving DecidableEq, Repr

/-- `Strategy` row as used by `strategy_utils.py` (timestamps modelled as ℤ). -/
structure Strategy where
  strategy_id : ℕ
  account_name : String
  ticker : String
  side : StrategySide
  thesis : String
  thesis_probability : ℚ
  entry_max_price : ℚ
  entry_min_implied_edge : ℚ
  entry_max_capital_risk : ℚ
  entry_max_position_shares : ℤ
  exit_take_profit_price : ℚ
  exit_stop_loss_price : ℚ
  exit_time_stop_utc : Option ℤ
  valid_until_utc : Option ℤ
  notes : Option String
deriving DecidableEq, Repr

/-- `UpdateStrategyRequest` from `strategy_utils.py`: optional overrides. -/
structure UpdateStrategyRequest where
  strategy_id : ℕ
  thesis : Option String := none
  thesis_probability : Option ℚ := none
  entry_max_price : Option ℚ := none
  exit_take_profit_price : Option ℚ := none
  exit_stop_loss_price : Option ℚ := none
  exit_time_stop_utc : Option ℤ := none
  valid_until_utc : Option ℤ := none
  notes : Option String := none
deriving DecidableEq, Repr

/-- The expiry test `old_strategy.valid_until_utc and
old_strategy.valid_until_utc <= now` from `strategy_utils.py` line 381. -/
def strategyExpired (st : Strategy) (now : ℤ) : Bool :=
  match st.valid_until_utc with
  | some t => decide (t ≤ now)
  | none => false

/-- The new-version row built by `update_strategy_handler`
(`strategy_utils.py` lines 394-434): request values where given, old values
otherwise — except `valid_until_utc`, which the source sets to the request
value or `None` ("new strategy starts without expiration unless specified"). -/
def carriedStrategy (req : UpdateStrategyRequest) (old : Strategy)
    (newId : ℕ) : Strategy :=
  { strategy_id := newId,
    account_name := old.account_name,
    ticker := old.ticker,
    side := old.side,
    thesis := req.thesis.getD old.thesis,
    thesis_probability := req.thesis_probability.getD old.thesis_probability,
    entry_max_price := req.entry_max_price.getD old.entry_max_price,
    entry_min_implied_edge := old.entry_min_implied_edge,
    entry_max_capital_risk := old.entry_max_capital_risk,
    entry_max_position_shares := old.entry_max_position_shares,
    exit_take_profit_price :=
      req.exit_take_profit_price.getD old.exit_take_profit_price,
    exit_stop_loss_price :=
      req.exit_stop_loss_price.getD old.exit_stop_loss_price,
    exit_time_stop_utc :=
      match req.exit_time_stop_utc with
      | some t => some t
      | none => old.exit_time_stop_utc,
    valid_until_utc := req.valid_until_utc,
    notes :=
      match req.notes with
      | some n => some n
      | none => old.notes }

/-- `update_strategy_handler` from `strategy_utils.py` lines 355-470: find the
row, reject when already expired, otherwise expire the old row at `now` and
append the carried-forward new row. -/
def updateStrategy (req : UpdateStrategyRequest) (now : ℤ) (newId : ℕ)
    (strategies : List Strategy) : Except String (List Strategy) :=
  match strategies.find? (fun st => st.strategy_id == req.strategy_id) with
  | none => .error "Strategy not found"
  | some old =>
    if strategyExpired old now then
      .error "Strategy is already expired"
    else
      .ok ((strategies.map (fun st =>
              if st.strategy_id == req.strategy_id then
                { st with valid_until_utc := some now }
              else st)) ++ [carriedStrategy req old newId])

/-- Rollback-on-error wrapper for `update_strategy_handler`: an error commits
nothing. -/
def runUpdateStrategy (req : UpdateStrategyRequest) (now : ℤ) (newId : ℕ)
    (strategies : List Strategy) : List Strategy :=
  match updateStrategy req now newId strategies with
  | .ok l => l
  | .error _ => strategies

/-- `KalshiOrderSide` enum used by `kalshi_utils.py`. -/
inductive KalshiOrderSide where
  | YES
  | NO
deriving DecidableEq, Repr

/-- `KalshiOrderAction` enum used by `kalshi_utils.py`. -/
inductive KalshiOrderAction where
  | BUY
  | SELL
deriving DecidableEq, Repr

/-- `KalshiOrderType` enum used by `kalshi_utils.py`. -/
inductive KalshiOrderType where
  | MARKET
  | LIMIT
deriving DecidableEq, Repr

/-- `KalshiOrderStatus` enum used by `kalshi_utils.py`. -/
inductive KalshiOrderStatus where
  | OPEN
  | FILLED
  | CANCELLED
deriving DecidableEq, Repr

/-- `KalshiOrder` row as used by `kalshi_utils.py`; `price` is in integer
cents, `expiration_ts` a Unix timestamp. -/
structure KalshiOrder where
  order_id : ℕ
  ticker : String
  side : KalshiOrderSide
  action : KalshiOrderAction
  count : ℤ
  otype : KalshiOrderType
  status : KalshiOrderStatus
  price : ℤ
  expiration_ts : ℤ
deriving DecidableEq, Repr

/-- A Kalshi market quote (the four cent prices used by the processors). -/
structure KalshiMarketQuote where
  yes_bid : ℤ
  yes_ask : ℤ
  no_bid : ℤ
  no_ask : ℤ
deriving DecidableEq, Repr

/-- The single account's Kalshi-side database state: balance, signed positions
keyed by ticker, and Kalshi orders. -/
structure KalshiState where
  balance : ℚ
  positions : List (String × ℤ)
  orders : List KalshiOrder
deriving DecidableEq, Repr

/-- Outcome of `_fill_kalshi_order` (`kalshi_utils.py` lines 447-554): either
the updated state, or an `OrderFillException` (insufficient balance or
position), after which the caller cancels the order. -/
def fillKalshiOrder (s : KalshiState) (order : KalshiOrder)
    (fill_price_cents : ℤ) : Except String KalshiState :=
  let cost_or_proceeds := (fill_price_cents : ℚ) / 100 * (order.count : ℚ)
  let markFilled := fun (l : List KalshiOrder) =>
    l.map (fun o =>
      if o.order_id == order.order_id then
        { o with status := .FILLED, price := fill_price_cents }
      else o)
  match order.action with
  | .BUY =>
    if s.balance < cost_or_proceeds then
      .error "Insufficient balance"
    else
      let position_change :=
        match order.side with
        | .YES => order.count
        | .NO => -order.count
      let positions' :=
        match lookupTok s.positions order.ticker with
        | some v => setTok s.positions order.ticker (v + position_change)
        | none => s.positions ++ [(order.ticker, position_change)]
      .ok { balance := s.balance - cost_or_proceeds,
            positions := positions',
            orders := markFilled s.orders }
  | .SELL =>
    match lookupTok s.positions order.ticker with
    | none => .error "No position to sell"
    | some position =>
      let required_position :=
        match order.side with
        | .YES => order.count
        | .NO => -order.count
      let insufficient :=
        match order.side with
        | .YES => decide (position < order.count)
        | .NO => decide (-order.count < position)
      if insufficient then
        .error "Insufficient position"
      else
        .ok { balance := s.balance + cost_or_proceeds,
              positions := setTok s.positions order.ticker
                (position - required_position),
              orders := markFilled s.orders }

/-- The per-order body of `process_kalshi_orders_handler` (`kalshi_utils.py`
lines 380-425): decide fillability from the quote, then fill, and on an
`OrderFillException` mark the order CANCELLED. -/
def processOneKalshiOrder (market_map : String → Option KalshiMarketQuote)
    (s : KalshiState) (order : KalshiOrder) : KalshiState :=
  match market_map order.ticker with
  | none => s
  | some market =>
    let fill_decision : Option ℤ :=
      match order.otype with
      | .MARKET =>
        match order.action with
        | .BUY =>
          some (match order.side with | .YES => market.yes_ask | .NO => market.no_ask)
        | .SELL =>
          some (match order.side with | .YES => market.yes_bid | .NO => market.no_bid)
      | .LIMIT =>
        match order.action with
        | .BUY =>
          let market_price :=
            match order.side with | .YES => market.yes_ask | .NO => market.no_ask
          if market_price ≤ order.price then some market_price else none
        | .SELL =>
          let market_price :=
            match order.side with | .YES => market.yes_bid | .NO => market.no_bid
          if order.price ≤ market_price then some market_price else none
    match fill_decision with
    | none => s
    | some fill_price_cents =>
      match fillKalshiOrder s order fill_price_cents with
      | .ok s2 => s2
      | .error _ =>
        { s with orders := s.orders.map (fun o =>
            if o.order_id == order.order_id then { o with status := .CANCELLED }
            else o) }

/-- `process_kalshi_orders_handler` from `kalshi_utils.py` lines 313-439:
process every OPEN, non-expired order of the account against the fetched
market map. -/
def processKalshiOrders (now : ℤ) (market_map : String → Option KalshiMarketQuote)
    (s : KalshiState) : KalshiState :=
  let todo := s.orders.filter
    (fun o => o.status == KalshiOrderStatus.OPEN && now < o.expiration_ts)
  todo.foldl (processOneKalshiOrder market_map) s

/-- The duplicate-entry guard query of `process_strategy_handler`
(`strategy_utils.py` lines 784-793): an OPEN, unexpired BUY `KalshiOrder` for
this ticker and side. -/
def existsOpenBuyOrder (orders : List KalshiOrder) (ticker : String)
    (side : KalshiOrderSide) (now : ℤ) : Bool :=
  orders.any (fun o =>
    o.ticker == ticker && o.side == side &&
    o.action == KalshiOrderAction.BUY && o.status == KalshiOrderStatus.OPEN &&
    now < o.expiration_ts)

/-- The conversion `KalshiOrderSide.YES if strategy.side == StrategySide.YES
else KalshiOrderSide.NO` from `strategy_utils.py` line 782. -/
def kalshiSideOf : StrategySide → KalshiOrderSide
  | .YES => KalshiOrderSide.YES
  | .NO => KalshiOrderSide.NO

/-- The decision reported by `process_strategy_handler` for a strategy with no
position: either a BUY (with `order_size` and `order_price` as placed in the
`ProcessStrategyResult`) or a skip. -/
inductive EntryDecision where
  | buy (order_size : ℤ) (order_price : ℚ)
  | skip
deriving DecidableEq, Repr

/-- The entry rules of `process_strategy_handler` (`strategy_utils.py` lines
740-836), evaluated when the account holds no position for the strategy's
ticker: skip on price above `entry_max_price`, on edge below
`entry_min_implied_edge`, on non-positive size, or on an existing open
unexpired BUY order; otherwise buy `size` at the current ask. -/
def processStrategyEntry (strat : Strategy) (ask_price : ℚ) (now : ℤ)
    (orders : List KalshiOrder) : EntryDecision :=
  if strat.entry_max_price < ask_price then
    .skip
  else
    let edge := strat.thesis_probability - ask_price
    if edge < strat.entry_min_implied_edge then
      .skip
    else
      let max_shares_by_risk := ⌊strat.entry_max_capital_risk / ask_price⌋
      let size := min max_shares_by_risk strat.entry_max_position_shares
      if size ≤ 0 then
        .skip
      else
        let order_side := kalshiSideOf strat.side
        if existsOpenBuyOrder orders strat.ticker order_side now then
          .skip
        else
          .buy size ask_price

/-- A concrete active strategy (valid until time 100) used to exercise
`update_strategy_handler`. -/
def sampleStrategy : Strategy :=
  { strategy_id := 1, account_name := "acct", ticker := "TK", side := .YES,
    thesis := "t", thesis_probability := 6/10, entry_max_price := 1/2,
    entry_min_implied_edge := 1/10, entry_max_capital_risk := 100,
    entry_max_position_shares := 50, exit_take_profit_price := 8/10,
    exit_stop_loss_price := 3/10, exit_time_stop_utc := none,
    valid_until_utc := some 100, notes := none }

/-- An update request for `sampleStrategy` that specifies no field at all. -/
def emptyUpdateRequest : UpdateStrategyRequest := { strategy_id := 1 }

/-- A fresh account at the initial balance with no positions, orders,
transactions or snapshots. -/
def freshAccountState : LedgerState :=
  { balance := 10000, positions := [], orders := [], transactions := [],
    snapshots := [], next_order_id := 0 }

/-- A position of 2 shares with total cost basis 1.00 and cash 100. -/
def twoShareState : LedgerState :=
  { balance := 100, positions := [("tok", { shares := 2, total_cost := 1 })],
    orders := [], transactions := [], snapshots := [], next_order_id := 0 }

/-- The state after placing SELL 1 @ 0.90 on `twoShareState` when the bid is
0.50 (non-crossing): 1 share reserved out of the position, cost basis left at
1.00, and an OPEN order resting. -/
def restingSellState : LedgerState :=
  { balance := 100, positions := [("tok", { shares := 1, total_cost := 1 })],
    orders := [{ order_id := 0, price := 9/10, size := 1, side := .SELL,
                 token_id := "tok", status := .OPEN }],
    transactions := [], snapshots := [], next_order_id := 1 }

/-- A quote map giving token "tok" a bid of 0.95 and no ask. -/
def tokBidQuotes : Quotes :=
  fun t => if t == "tok" then some (some (95/100), none) else none

/-- A Kalshi limit BUY (YES side) resting at 50¢, unexpired, on an account
with zero balance. -/
def kalshiZeroBalanceState : KalshiState :=
  { balance := 0, positions := [],
    orders := [{ order_id := 0, ticker := "MKT", side := .YES, action := .BUY,
                 count := 1, otype := .LIMIT, status := .OPEN, price := 50,
                 expiration_ts := 100 }] }

/-- A Kalshi market map quoting ticker "MKT" at yes bid/ask 40¢. -/
def kalshiMarketMap : String → Option KalshiMarketQuote :=
  fun t => if t == "MKT" then
    some { yes_bid := 40, yes_ask := 40, no_bid := 60, no_ask := 60 }
  else none

/-! ## Theorems -/

/-! ### Association-list and replay lemmas -/

theorem lookupTok_setTok_self {α : Type} (l : List (String × α)) (tok : String)
    (v : α) : lookupTok (setTok l tok v) tok = some v := by
  induction l with
  | nil => simp [setTok, lookupTok]
  | cons h t ih =>
    obtain ⟨k, w⟩ := h
    by_cases hk : (k == tok) = true
    · simp [setTok, hk, lookupTok]
    · simp [setTok, hk, lookupTok, ih]

theorem lookupTok_setTok_ne {α : Type} (l : List (String × α))
    (tok tok' : String) (v : α) (hne : tok' ≠ tok) :
    lookupTok (setTok l tok v) tok' = lookupTok l tok' := by
  induction l with
  | nil =>
    simp [setTok, lookupTok]
    intro h
    exact hne h.symm
  | cons h t ih =>
    obtain ⟨k, w⟩ := h
    by_cases hk : (k == tok) = true
    · have hk' : k = tok := by simpa using hk
      subst hk'
      simp [setTok, lookupTok, beq_iff_eq, Ne.symm hne]
    · simp only [setTok, hk, if_false]
      by_cases hk2 : (k == tok') = true
      · simp [lookupTok, hk2]
      · simp [lookupTok, hk2, ih]

theorem lookupTok_append {α : Type} (l l2 : List (String × α)) (tok : String) :
    lookupTok (l ++ l2) tok =
      match lookupTok l tok with
      | some x => some x
      | none => lookupTok l2 tok := by
  induction l with
  | nil => simp [lookupTok]
  | cons h t ih =>
    obtain ⟨k, w⟩ := h
    by_cases hk : (k == tok) = true
    · simp [lookupTok, hk]
    · simp [lookupTok, hk, ih]

theorem lookupTok_map {α β : Type} (f : α → β) (l : List (String × α))
    (tok : String) :
    lookupTok (l.map (fun p => (p.1, f p.2))) tok = (lookupTok l tok).map f := by
  induction l with
  | nil => simp [lookupTok]
  | cons h t ih =>
    obtain ⟨k, w⟩ := h
    by_cases hk : (k == tok) = true
    · simp [lookupTok, hk]
    · simp [lookupTok, hk, ih]

theorem lookupTok_eq_none_iff {α : Type} (l : List (String × α)) (tok : String) :
    lookupTok l tok = none ↔ ∀ p ∈ l, p.1 ≠ tok := by
  induction l with
  | nil => simp [lookupTok]
  | cons h t ih =>
    obtain ⟨k, w⟩ := h
    by_cases hk : (k == tok) = true
    · have : k = tok := by simpa using hk
      subst this
      simp [lookupTok]
    · have : ¬ k = tok := by simpa using hk
      simp [lookupTok, hk, ih, this]

theorem getD_bumpShares (l : List (String × ℤ)) (tok : String) (d : ℤ)
    (tok' : String) :
    (lookupTok (bumpShares l tok d) tok').getD 0 =
      (lookupTok l tok').getD 0 + (if tok' = tok then d else 0) := by
  unfold bumpShares
  cases hl : lookupTok l tok with
  | some v =>
    by_cases he : tok' = tok
    · subst he
      simp [lookupTok_setTok_self, hl]
    · simp [lookupTok_setTok_ne l tok tok' _ he, he]
  | none =>
    rw [lookupTok_append]
    by_cases he : tok' = tok
    · subst he
      simp [hl, lookupTok]
    · cases hl2 : lookupTok l tok' with
      | some x => simp [hl2, he]
      | none => simp [hl2, he, lookupTok, Ne.symm he]

theorem replay_fold_balance (txns : List Transaction) :
    ∀ (b : ℚ) (l : List (String × ℤ)),
      (txns.foldl replayStep (b, l)).1 = b + specNetCash txns := by
  induction txns with
  | nil => intro b l; simp [specNetCash]
  | cons t ts ih =>
    intro b l
    cases hs : t.side <;>
      simp [List.foldl_cons, replayStep, hs, specNetCash, ih] <;> ring

theorem replay_fold_shares (txns : List Transaction) :
    ∀ (b : ℚ) (l : List (String × ℤ)) (tok : String),
      (lookupTok (txns.foldl replayStep (b, l)).2 tok).getD 0 =
        (lookupTok l tok).getD 0 + specNetShares txns tok := by
  induction txns with
  | nil => intro b l tok; simp [specNetShares]
  | cons t ts ih =>
    intro b l tok
    cases hs : t.side
    case BUY =>
      simp only [List.foldl_cons, replayStep, hs]
      rw [ih, getD_bumpShares]
      simp only [specNetShares, List.map_cons, List.sum_cons, hs]
      by_cases he : t.token_id = tok
      · subst he
        simp
        ring
      · rw [if_neg (fun h => he h.symm), if_neg he]
        ring
    case SELL =>
      simp only [List.foldl_cons, replayStep, hs]
      rw [ih, getD_bumpShares]
      simp only [specNetShares, List.map_cons, List.sum_cons, hs]
      by_cases he : t.token_id = tok
      · subst he
        simp
        ring
      · rw [if_neg (fun h => he h.symm), if_neg he]
        ring

/-- The live share count seen through the audit's `actual_positions` map. -/
theorem actualShares_eq_lookup (s : LedgerState) (tok : String) :
    (lookupTok (s.positions.map (fun p => (p.1, p.2.shares))) tok).getD 0 =
      actualShares s tok := by
  rw [lookupTok_map]
  unfold actualShares
  cases lookupTok s.positions tok <;> simp

/-- The replayed per-token share count equals the spec-level signed sum. -/
theorem audit_expected_shares (s : LedgerState) (tok : String) :
    (lookupTok (s.transactions.foldl replayStep (INITIAL_BALANCE, [])).2 tok).getD 0
      = specNetShares s.transactions tok := by
  rw [replay_fold_shares]
  simp [lookupTok]

/-- The audit's consistency verdict, characterised: consistent iff the live
balance equals the replayed balance and every token's live shares equal the
replayed shares. -/
theorem audit_consistent_iff (s : LedgerState) :
    (auditAccount s).is_consistent = true ↔
      (s.balance = INITIAL_BALANCE + specNetCash s.transactions ∧
        ∀ tok, actualShares s tok = specNetShares s.transactions tok) := by
  unfold auditAccount
  simp only [Bool.and_eq_true, beq_iff_eq, sub_eq_zero, List.all_eq_true,
    List.mem_map]
  constructor
  · rintro ⟨hbal, hpos⟩
    refine ⟨by rw [hbal, replay_fold_balance], ?_⟩
    intro tok
    by_cases hmem : tok ∈
        ((s.transactions.foldl replayStep (INITIAL_BALANCE, [])).2.map
            (fun p => p.1) ++
          (s.positions.map (fun p => (p.1, p.2.shares))).map
            (fun p => p.1)).dedup
    · have := hpos _ ⟨tok, hmem, rfl⟩
      simp only [sub_eq_zero, beq_iff_eq] at this
      rw [← actualShares_eq_lookup, ← audit_expected_shares s tok]
      simpa using this
    · rw [List.mem_dedup, List.mem_append] at hmem
      push_neg at hmem
      obtain ⟨hexp, hact⟩ := hmem
      have h1 : lookupTok
          (s.transactions.foldl replayStep (INITIAL_BALANCE, [])).2 tok = none := by
        rw [lookupTok_eq_none_iff]
        intro p hp hptok
        exact hexp (List.mem_map.mpr ⟨p, hp, hptok⟩)
      have h2 : lookupTok (s.positions.map (fun p => (p.1, p.2.shares))) tok
          = none := by
        rw [lookupTok_eq_none_iff]
        intro p hp hptok
        exact hact (List.mem_map.mpr ⟨p, hp, hptok⟩)
      have he0 : specNetShares s.transactions tok = 0 := by
        rw [← audit_expected_shares s tok, h1]
        rfl
      have ha0 : actualShares s tok = 0 := by
        rw [← actualShares_eq_lookup, h2]
        rfl
      rw [he0, ha0]
  · rintro ⟨hbal, hpos⟩
    constructor
    · rw [replay_fold_balance]
      exact hbal
    · rintro d ⟨tok, _, rfl⟩
      simp only [beq_iff_eq, sub_eq_zero]
      rw [actualShares_eq_lookup, audit_expected_shares s tok]
      exact hpos tok

/-- The audit's balance difference equals live balance minus replayed balance. -/
theorem audit_balance_difference (s : LedgerState) :
    (auditAccount s).balance_difference
      = s.balance - (INITIAL_BALANCE + specNetCash s.transactions) := by
  unfold auditAccount
  simp [replay_fold_balance]

/-- **C4** — The audit starts its running balance at the fixed constant
10000.00, replays the account's transactions in execution-time order (BUY
subtracts `price × size` and adds `size` shares, SELL the inverse), reports
`is_consistent = true` iff the recomputed balance equals the live balance and
every recomputed per-token share count equals the live position's shares, and
mutates no state (the handler returns the database unchanged). -/
theorem audit_replays_transactions (s : LedgerState) :
    (auditAccount s).initial_balance = 10000
    ∧ (auditAccount s).expected_balance
        = INITIAL_BALANCE + specNetCash s.transactions
    ∧ (auditAccount s).actual_balance = s.balance
    ∧ (auditAccount s).balance_difference
        = s.balance - (INITIAL_BALANCE + specNetCash s.transactions)
    ∧ ((auditAccount s).is_consistent = true ↔
        (s.balance = INITIAL_BALANCE + specNetCash s.transactions ∧
          ∀ tok, actualShares s tok = specNetShares s.transactions tok))
    ∧ auditAccountHandler s = (auditAccount s, s) := by
  refine ⟨rfl, ?_, rfl, audit_balance_difference s, audit_consistent_iff s, rfl⟩
  unfold auditAccount
  simp [replay_fold_balance]

/-! ### Batch-processor lemmas -/

theorem fillOrder_orders (order : Order) (s : LedgerState) :
    (fillOrderAtLimitPrice order s).orders
      = s.orders.map (fun o =>
          if o.order_id == order.order_id then { o with status := OrderStatus.FILLED }
          else o) := by
  cases h : order.side <;> simp [fillOrderAtLimitPrice, h]

theorem fillOrder_transactions (order : Order) (s : LedgerState) :
    (fillOrderAtLimitPrice order s).transactions
      = s.transactions ++ [limitFillTxn order] := by
  cases h : order.side <;> simp [fillOrderAtLimitPrice, limitFillTxn, h]

theorem processOne_eq (quotes : Quotes) (s : LedgerState) (o : Order) :
    processOneOpenOrder quotes s o =
      (if eligibleFill quotes o then fillOrderAtLimitPrice o s else s,
       if eligibleFill quotes o then "filled" else "skipped") := by
  unfold processOneOpenOrder eligibleFill
  cases hq : quotes o.token_id with
  | none => simp
  | some pr =>
    obtain ⟨bq, aq⟩ := pr
    cases hs : o.side
    case BUY =>
      cases aq with
      | none => simp
      | some a => by_cases hle : a ≤ o.price <;> simp [hle]
    case SELL =>
      cases bq with
      | none => simp
      | some b => by_cases hle : o.price ≤ b <;> simp [hle]

theorem order_eq_of_mem_of_id (l : List Order)
    (hn : (l.map (fun o => o.order_id)).Nodup) {o o' : Order}
    (ho : o ∈ l) (ho' : o' ∈ l) (hid : o.order_id = o'.order_id) : o = o' :=
  List.inj_on_of_nodup_map hn ho ho' hid

theorem map_statusUpdate_ids (l : List Order) (oid : ℕ) (st : OrderStatus) :
    ((l.map (fun o =>
        if o.order_id == oid then { o with status := st } else o)).map
      (fun o => o.order_id))
      = l.map (fun o => o.order_id) := by
  rw [List.map_map]
  apply List.map_congr_left
  intro o _
  by_cases h : o.order_id = oid <;> simp [h]

theorem find?_by_id_eq (l : List Order)
    (hn : (l.map (fun o => o.order_id)).Nodup)
    {o : Order} (ho : o ∈ l) :
    l.find? (fun o2 => o2.order_id == o.order_id) = some o := by
  induction l with
  | nil => simp at ho
  | cons h t ih =>
    by_cases hh : (h.order_id == o.order_id) = true
    · have he : h = o :=
        order_eq_of_mem_of_id (h :: t) hn (List.mem_cons_self h t) ho
          (by simpa using hh)
      simp [List.find?_cons, hh, he]
    · have ho' : o ∈ t := by
        rcases List.mem_cons.mp ho with he | ht
        · subst he
          simp at hh
        · exact ht
      have hn' : (t.map (fun o => o.order_id)).Nodup := by
        simpa using (List.nodup_cons.mp (by simpa using hn)).2
      simp only [List.find?_cons, hh]
      exact ih hn' ho'

theorem processLoop_spec (quotes : Quotes) :
    ∀ (todo : List Order) (s : LedgerState),
      (∀ o ∈ todo, o ∈ s.orders ∧ o.status = OrderStatus.OPEN) →
      (s.orders.map (fun o => o.order_id)).Nodup →
      (todo.map (fun o => o.order_id)).Nodup →
      (processLoop quotes todo s).1.orders
        = s.orders.map (fun o =>
            if o.order_id ∈ todo.map (fun o2 => o2.order_id)
                ∧ eligibleFill quotes o = true then
              { o with status := OrderStatus.FILLED }
            else o)
      ∧ (processLoop quotes todo s).1.transactions
        = s.transactions
          ++ (todo.filter (fun o => eligibleFill quotes o)).map limitFillTxn
      ∧ (processLoop quotes todo s).2
        = todo.map (fun o =>
            (o.order_id, if eligibleFill quotes o then "filled" else "skipped")) := by
  intro todo
  induction todo with
  | nil =>
    intro s h1 h2 h3
    simp [processLoop]
  | cons o rest ih =>
    intro s h1 h2 h3
    have hoS : o ∈ s.orders := (h1 o (List.mem_cons_self o rest)).1
    obtain ⟨hnotin, hrestnodup⟩ :
        o.order_id ∉ rest.map (fun o2 => o2.order_id) ∧
          (rest.map (fun o2 => o2.order_id)).Nodup := by
      simpa [List.map_cons, List.nodup_cons] using h3
    have hrest_ne : ∀ o2 ∈ rest, o2.order_id ≠ o.order_id := by
      intro o2 hm heq
      exact hnotin (heq ▸ List.mem_map.mpr ⟨o2, hm, rfl⟩)
    by_cases hE : eligibleFill quotes o = true
    · -- the head order fills
      have hr1 : processOneOpenOrder quotes s o
          = (fillOrderAtLimitPrice o s, "filled") := by
        rw [processOne_eq, if_pos hE, if_pos hE]
      have h1' : ∀ o2 ∈ rest,
          o2 ∈ (fillOrderAtLimitPrice o s).orders ∧
            o2.status = OrderStatus.OPEN := by
        intro o2 hm
        have hmem := (h1 o2 (List.mem_cons_of_mem o hm)).1
        have hst := (h1 o2 (List.mem_cons_of_mem o hm)).2
        have hne := hrest_ne o2 hm
        have hfix : (fun oo =>
            if oo.order_id == o.order_id then
              { oo with status := OrderStatus.FILLED } else oo) o2 = o2 := by
          simp [hne]
        refine ⟨?_, hst⟩
        rw [fillOrder_orders]
        exact hfix ▸ List.mem_map_of_mem _ hmem
      have h2' : ((fillOrderAtLimitPrice o s).orders.map
          (fun o2 => o2.order_id)).Nodup := by
        rw [fillOrder_orders, map_statusUpdate_ids]
        exact h2
      obtain ⟨ihO, ihT, ihR⟩ := ih (fillOrderAtLimitPrice o s) h1' h2' hrestnodup
      have hloop : processLoop quotes (o :: rest) s
          = ((processLoop quotes rest (fillOrderAtLimitPrice o s)).1,
             (o.order_id, "filled")
               :: (processLoop quotes rest (fillOrderAtLimitPrice o s)).2) := by
        simp [processLoop, hr1]
      rw [hloop]
      refine ⟨?_, ?_, ?_⟩
      · rw [ihO, fillOrder_orders, List.map_map]
        apply List.map_congr_left
        intro o'' hmem''
        by_cases hid : o''.order_id = o.order_id
        · have ho''eq : o'' = o := order_eq_of_mem_of_id s.orders h2 hmem'' hoS hid
          subst ho''eq
          have hnotin' :
              ({ o'' with status := OrderStatus.FILLED } : Order).order_id
                ∉ rest.map (fun o2 => o2.order_id) := hnotin
          simp [Function.comp, hE, hnotin']
        · have hbeq : (o''.order_id == o.order_id) = false := by
            simpa using hid
          simp only [Function.comp_apply, hbeq, Bool.false_eq_true, if_false,
            List.map_cons, List.mem_cons]
          simp [hid]
      · rw [ihT, fillOrder_transactions]
        simp [List.filter_cons, hE, List.append_assoc]
      · rw [ihR]
        simp [hE]
    · -- the head order is skipped
      have hr1 : processOneOpenOrder quotes s o = (s, "skipped") := by
        rw [processOne_eq, if_neg hE, if_neg hE]
      have h1' : ∀ o2 ∈ rest, o2 ∈ s.orders ∧ o2.status = OrderStatus.OPEN :=
        fun o2 hm => h1 o2 (List.mem_cons_of_mem o hm)
      obtain ⟨ihO, ihT, ihR⟩ := ih s h1' h2 hrestnodup
      have hloop : processLoop quotes (o :: rest) s
          = ((processLoop quotes rest s).1,
             (o.order_id, "skipped") :: (processLoop quotes rest s).2) := by
        simp [processLoop, hr1]
      rw [hloop]
      refine ⟨?_, ?_, ?_⟩
      · rw [ihO]
        apply List.map_congr_left
        intro o'' hmem''
        by_cases hid : o''.order_id = o.order_id
        · have ho''eq : o'' = o := order_eq_of_mem_of_id s.orders h2 hmem'' hoS hid
          subst ho''eq
          simp [hE, hnotin]
        · simp [hid]
      · rw [ihT]
        simp [List.filter_cons, hE]
      · rw [ihR]
        simp [hE]

/-- `process_open_orders_handler`, characterised over a state whose order ids
are unique: an OPEN order's row becomes FILLED exactly when its quote makes it
eligible, every fill appends the order's limit-price Transaction, each OPEN
order's result is "filled" or "skipped", and no order is ever CANCELLED by the
processor. -/
theorem processOpenOrders_spec (quotes : Quotes) (s : LedgerState)
    (hnodup : (s.orders.map (fun o => o.order_id)).Nodup) :
    (processOpenOrders quotes s).1.orders
      = s.orders.map (fun o =>
          if o.status = OrderStatus.OPEN ∧ eligibleFill quotes o = true then
            { o with status := OrderStatus.FILLED }
          else o)
    ∧ (processOpenOrders quotes s).1.transactions
      = s.transactions
        ++ ((openOrdersOf s).filter (fun o => eligibleFill quotes o)).map
            limitFillTxn
    ∧ (processOpenOrders quotes s).2.results
      = (openOrdersOf s).map (fun o =>
          (o.order_id, if eligibleFill quotes o then "filled" else "skipped")) := by
  have hsub : (openOrdersOf s).Sublist s.orders := List.filter_sublist s.orders
  have h1 : ∀ o ∈ openOrdersOf s, o ∈ s.orders ∧ o.status = OrderStatus.OPEN := by
    intro o hm
    have := List.mem_filter.mp hm
    exact ⟨this.1, by simpa using this.2⟩
  have h3 : ((openOrdersOf s).map (fun o => o.order_id)).Nodup :=
    hnodup.sublist (hsub.map _)
  obtain ⟨hO, hT, hR⟩ := processLoop_spec quotes (openOrdersOf s) s h1 hnodup h3
  refine ⟨?_, by exact hT, by exact hR⟩
  rw [show (processOpenOrders quotes s).1
      = (processLoop quotes (openOrdersOf s) s).1 from rfl, hO]
  apply List.map_congr_left
  intro o hmem
  by_cases hopen : o.status = OrderStatus.OPEN
  · have hmemtodo : o ∈ openOrdersOf s :=
      List.mem_filter.mpr ⟨hmem, by simpa using hopen⟩
    have hin : o.order_id ∈ (openOrdersOf s).map (fun o2 => o2.order_id) :=
      List.mem_map.mpr ⟨o, hmemtodo, rfl⟩
    simp [hopen, hin]
  · have hnotintodo :
        o.order_id ∉ (openOrdersOf s).map (fun o2 => o2.order_id) := by
      intro hin
      obtain ⟨o2, hm2, hid2⟩ := List.mem_map.mp hin
      have : o2 = o := order_eq_of_mem_of_id s.orders hnodup
        ((List.mem_filter.mp hm2).1) hmem hid2
      subst this
      exact hopen (by simpa using (List.mem_filter.mp hm2).2)
    simp [hopen, hnotintodo]

/-- The per-token entry built by `get_batch_market_prices_for_tokens` is the
spec-level mark price. -/
theorem batch_price_entry (oracle : String → Option ℚ × Option ℚ)
    (tok : String) :
    (match oracle tok with
      | (some buy_price, some sell_price) =>
        some (tok, (buy_price + sell_price) / 2)
      | (some buy_price, none) => some (tok, buy_price)
      | (none, some sell_price) => some (tok, sell_price)
      | (none, none) => none)
      = (specMarkPrice (oracle tok)).map (fun p => (tok, p)) := by
  rcases oracle tok with ⟨_ | b, _ | a⟩ <;> rfl

/-- Looking a token up in the batched price map yields its spec-level mark
price when the token was requested, and nothing otherwise. -/
theorem lookup_batch_prices (tl : List String)
    (oracle : String → Option ℚ × Option ℚ) (tok : String) :
    lookupTok (getBatchMarketPricesForTokens tl oracle) tok =
      if tok ∈ tl then specMarkPrice (oracle tok) else none := by
  induction tl with
  | nil => simp [getBatchMarketPricesForTokens, lookupTok]
  | cons h t ih =>
    unfold getBatchMarketPricesForTokens at ih ⊢
    rw [List.filterMap_cons, batch_price_entry]
    cases hm : specMarkPrice (oracle h) with
    | none =>
      simp only [Option.map_none']
      rw [ih]
      by_cases he : tok = h
      · subst he
        simp [hm]
      · simp [he]
    | some p =>
      simp only [Option.map_some']
      by_cases he : tok = h
      · subst he
        simp [lookupTok, hm]
      · simp only [lookupTok, List.mem_cons]
        rw [if_neg (by simpa using Ne.symm he), ih]
        simp [he]

/-- Folding the valuation's position-value accumulator equals the running sum
of the per-entry values. -/
theorem foldl_position_value (prices : List (String × ℚ))
    (entries : List (String × ℤ)) :
    ∀ acc : ℚ,
      entries.foldl
        (fun acc p =>
          if 0 < p.2 then
            match lookupTok prices p.1 with
            | some current_price => acc + current_price * (p.2 : ℚ)
            | none => acc
          else acc) acc
      = acc + (entries.map (fun p =>
          if 0 < p.2 then
            match lookupTok prices p.1 with
            | some current_price => current_price * (p.2 : ℚ)
            | none => 0
          else 0)).sum := by
  induction entries with
  | nil => intro acc; simp
  | cons e es ih =>
    intro acc
    simp only [List.foldl_cons, List.map_cons, List.sum_cons]
    by_cases hpos : 0 < e.2
    · simp only [if_pos hpos]
      cases hl : lookupTok prices e.1 with
      | none =>
        rw [ih]
        simp
      | some c =>
        rw [ih]
        ring
    · simp only [if_neg hpos]
      rw [ih]
      simp

/-- Folding the valuation's reserved-cash accumulator equals the running sum
of per-order BUY notionals. -/
theorem foldl_reserved_cash (orders : List Order) :
    ∀ acc : ℚ,
      orders.foldl
        (fun acc o =>
          match o.side with
          | .BUY => acc + o.price * (o.size : ℚ)
          | .SELL => acc) acc
      = acc + (orders.map (fun o =>
          match o.side with
          | .BUY => o.price * (o.size : ℚ)
          | .SELL => 0)).sum := by
  induction orders with
  | nil => intro acc; simp
  | cons o os ih =>
    intro acc
    cases ho : o.side <;>
      simp only [List.foldl_cons, List.map_cons, List.sum_cons, ho] <;>
      rw [ih] <;> ring

/-- **C7** — The valuation computes
total = cash + Σ(effective shares × mark price) + reserved BUY cash, where the
effective shares are the position shares plus shares reserved by open SELL
orders, the mark price is the bid/ask midpoint when both sides are quoted,
the single available side when only one is, and an unquoted token contributes
nothing to the sum; the invocation appends exactly one snapshot and leaves the
balance, positions, orders and transactions untouched. -/
theorem account_valuation_formula (oracle : String → Option ℚ × Option ℚ)
    (s : LedgerState) :
    (updateAccountValue oracle s).1
      = s.balance + reservedBuyCash s +
        ((effectiveShares s).map (fun p =>
          if 0 < p.2 then
            match specMarkPrice (oracle p.1) with
            | some mark => mark * (p.2 : ℚ)
            | none => 0
          else 0)).sum
    ∧ reservedBuyCash s
      = ((openOrdersOf s).map (fun o =>
          match o.side with
          | .BUY => o.price * (o.size : ℚ)
          | .SELL => 0)).sum
    ∧ (updateAccountValue oracle s).2.balance = s.balance
    ∧ (updateAccountValue oracle s).2.positions = s.positions
    ∧ (updateAccountValue oracle s).2.orders = s.orders
    ∧ (updateAccountValue oracle s).2.transactions = s.transactions
    ∧ (updateAccountValue oracle s).2.snapshots
      = s.snapshots ++ [(updateAccountValue oracle s).1] := by
  refine ⟨?_, ?_, rfl, rfl, rfl, rfl, rfl⟩
  · show s.balance + reservedBuyCash s +
        (effectiveShares s).foldl _ 0 = _
    rw [foldl_position_value]
    rw [zero_add]
    congr 1
    congr 1
    apply List.map_congr_left
    intro p hp
    by_cases hpos : 0 < p.2
    · rw [if_pos hpos, if_pos hpos]
      have hmem : p.1 ∈ ((effectiveShares s).filter (fun p => 0 < p.2)).map
          (fun p => p.1) :=
        List.mem_map.mpr ⟨p, List.mem_filter.mpr ⟨hp, by simpa using hpos⟩, rfl⟩
      rw [lookup_batch_prices, if_pos hmem]
    · rw [if_neg hpos, if_neg hpos]
  · show (openOrdersOf s).foldl _ 0 = _
    rw [foldl_reserved_cash, zero_add]

/-- **C3 (amended)** — For every open order processed by the Polymarket batch
processor: a BUY fills iff the current ask ≤ its limit price, a SELL fills iff
the current bid ≥ its limit price, fills execute at the order's limit price
(the appended Transaction carries the limit price), and in every other case —
price not eligible, relevant side missing, or no quote for the token — the
order stays OPEN; this processor never sets an order to CANCELLED.  (The
Kalshi batch processor does cancel orders on failed fills and fills at the
market price; see the counterexample.) -/
theorem batch_processor_fill_rules (quotes : Quotes) (s : LedgerState)
    (hnodup : (s.orders.map (fun o => o.order_id)).Nodup) :
    (processOpenOrders quotes s).1.orders
      = s.orders.map (fun o =>
          if o.status = OrderStatus.OPEN ∧ eligibleFill quotes o = true then
            { o with status := OrderStatus.FILLED }
          else o)
    ∧ (processOpenOrders quotes s).1.transactions
      = s.transactions
        ++ ((openOrdersOf s).filter (fun o => eligibleFill quotes o)).map
            limitFillTxn
    ∧ (processOpenOrders quotes s).2.results
      = (openOrdersOf s).map (fun o =>
          (o.order_id, if eligibleFill quotes o then "filled" else "skipped"))
    ∧ (∀ o' ∈ (processOpenOrders quotes s).1.orders,
        o'.status = OrderStatus.CANCELLED →
          ∃ o ∈ s.orders, o.status = OrderStatus.CANCELLED ∧ o' = o)
    ∧ (∀ o : Order, ∀ bq : Option ℚ, ∀ a : ℚ, o.side = OrderSide.BUY →
        quotes o.token_id = some (bq, some a) →
        (eligibleFill quotes o = true ↔ a ≤ o.price))
    ∧ (∀ o : Order, ∀ b : ℚ, ∀ aq : Option ℚ, o.side = OrderSide.SELL →
        quotes o.token_id = some (some b, aq) →
        (eligibleFill quotes o = true ↔ o.price ≤ b))
    ∧ (∀ o : Order, quotes o.token_id = none → eligibleFill quotes o = false) := by
  obtain ⟨hO, hT, hR⟩ := processOpenOrders_spec quotes s hnodup
  refine ⟨hO, hT, hR, ?_, ?_, ?_, ?_⟩
  · intro o' hmem hcanc
    rw [hO] at hmem
    obtain ⟨o, ho, rfl⟩ := List.mem_map.mp hmem
    by_cases hc : o.status = OrderStatus.OPEN ∧ eligibleFill quotes o = true
    · rw [if_pos hc] at hcanc ⊢
      simp at hcanc
    · rw [if_neg hc] at hcanc ⊢
      exact ⟨o, ho, hcanc, rfl⟩
  · intro o bq a hside hq
    unfold eligibleFill
    rw [hq, hside]
    simp
  · intro o b aq hside hq
    unfold eligibleFill
    rw [hq, hside]
    simp
  · intro o hq
    unfold eligibleFill
    rw [hq]

/-- **C3 witness** — the amended theorem applied to the resting SELL at 0.90
with bid 0.95: the one OPEN order is filled (status FILLED), with the
Transaction recorded at the limit price 0.90. -/
theorem batch_processor_fill_rules_witness :
    (processOpenOrders tokBidQuotes restingSellState).1.orders
      = [{ order_id := 0, price := 9/10, size := 1, side := .SELL,
           token_id := "tok", status := OrderStatus.FILLED }]
    ∧ (processOpenOrders tokBidQuotes restingSellState).1.transactions
      = [{ token_id := "tok", execution_price := 9/10, side := .SELL,
           size := 1 }] := by
  obtain ⟨hO, hT, _⟩ := batch_processor_fill_rules tokBidQuotes restingSellState
    (by norm_num [restingSellState])
  constructor
  · rw [hO]
    norm_num [restingSellState, eligibleFill, tokBidQuotes]
  · rw [hT]
    norm_num [restingSellState, openOrdersOf, eligibleFill, tokBidQuotes,
      limitFillTxn]

/-- **C9** — For an active strategy with no position, `process_strategy_handler`
places a BUY limit order at the current ask for
size = min(⌊entry_max_capital_risk / ask⌋, entry_max_position_shares) iff
ask ≤ entry_max_price, thesis_probability − ask ≥ entry_min_implied_edge,
size > 0, and no open unexpired BUY order exists for the ticker and side;
in every other case it reports a skip and places no order. -/
theorem entry_rules_characterization (strat : Strategy) (ask_price : ℚ)
    (now : ℤ) (orders : List KalshiOrder) :
    processStrategyEntry strat ask_price now orders =
      (if ask_price ≤ strat.entry_max_price ∧
          strat.entry_min_implied_edge ≤ strat.thesis_probability - ask_price ∧
          0 < min ⌊strat.entry_max_capital_risk / ask_price⌋
              strat.entry_max_position_shares ∧
          existsOpenBuyOrder orders strat.ticker (kalshiSideOf strat.side) now
            = false
       then
        EntryDecision.buy
          (min ⌊strat.entry_max_capital_risk / ask_price⌋
            strat.entry_max_position_shares) ask_price
       else EntryDecision.skip) := by
  unfold processStrategyEntry
  by_cases h1 : strat.entry_max_price < ask_price
  · simp [h1, not_le.mpr h1]
  · by_cases h2 : strat.thesis_probability - ask_price < strat.entry_min_implied_edge
    · simp [h1, h2, not_le.mpr h2, not_lt.mp h1]
    · by_cases h3 : min ⌊strat.entry_max_capital_risk / ask_price⌋
          strat.entry_max_position_shares ≤ 0
      · simp [h1, h2, h3, not_lt.mp h1, not_lt.mp h2, not_lt.mpr h3]
      · by_cases h4 : existsOpenBuyOrder orders strat.ticker
            (kalshiSideOf strat.side) now
        · simp [h1, h2, h3, h4, not_lt.mp h1, not_lt.mp h2]
        · simp [h1, h2, h3, h4, not_lt.mp h1, not_lt.mp h2, not_le.mp h3]

/-- **C8 counterexample** — Updating (at time 50, with fresh id 2) a strategy
whose `valid_until_utc` is 100, specifying no field, produces a new row whose
`valid_until_utc` is `none`, not the old row's value 100: the validity window
is NOT carried forward. -/
theorem update_strategy_validity_not_carried :
    sampleStrategy.valid_until_utc = some 100 ∧
    emptyUpdateRequest.valid_until_utc = none ∧
    (runUpdateStrategy emptyUpdateRequest 50 2 [sampleStrategy]).map
        (fun st => (st.strategy_id, st.valid_until_utc))
      = [(1, some 50), (2, none)] := by
  refine ⟨rfl, rfl, ?_⟩
  simp [runUpdateStrategy, updateStrategy, strategyExpired, carriedStrategy,
    sampleStrategy, emptyUpdateRequest]

/-- **C8 (amended)** — Updating a strategy expires the old row (only its
`valid_until_utc` changes, to `now`) and inserts a new row with a fresh id in
which every unspecified field carries forward the old value, EXCEPT the
validity window, which becomes the request's value or `None` (indefinite) when
unspecified; updating an already-expired strategy fails with no state
change. -/
theorem update_strategy_immutable_versioning (sts : List Strategy)
    (req : UpdateStrategyRequest) (now : ℤ) (newId : ℕ) (old : Strategy)
    (hfind : sts.find? (fun st => st.strategy_id == req.strategy_id) = some old) :
    ((∀ t ∈ old.valid_until_utc, now < t) →
      updateStrategy req now newId sts =
        .ok ((sts.map (fun st =>
            if st.strategy_id == req.strategy_id then
              { st with valid_until_utc := some now }
            else st)) ++ [carriedStrategy req old newId]))
    ∧ (carriedStrategy req old newId).strategy_id = newId
    ∧ (carriedStrategy req old newId).account_name = old.account_name
    ∧ (carriedStrategy req old newId).ticker = old.ticker
    ∧ (carriedStrategy req old newId).side = old.side
    ∧ (req.thesis = none → (carriedStrategy req old newId).thesis = old.thesis)
    ∧ (req.thesis_probability = none →
        (carriedStrategy req old newId).thesis_probability = old.thesis_probability)
    ∧ (req.entry_max_price = none →
        (carriedStrategy req old newId).entry_max_price = old.entry_max_price)
    ∧ (carriedStrategy req old newId).entry_min_implied_edge
        = old.entry_min_implied_edge
    ∧ (carriedStrategy req old newId).entry_max_capital_risk
        = old.entry_max_capital_risk
    ∧ (carriedStrategy req old newId).entry_max_position_shares
        = old.entry_max_position_shares
    ∧ (req.exit_take_profit_price = none →
        (carriedStrategy req old newId).exit_take_profit_price
          = old.exit_take_profit_price)
    ∧ (req.exit_stop_loss_price = none →
        (carriedStrategy req old newId).exit_stop_loss_price
          = old.exit_stop_loss_price)
    ∧ (req.exit_time_stop_utc = none →
        (carriedStrategy req old newId).exit_time_stop_utc = old.exit_time_stop_utc)
    ∧ (carriedStrategy req old newId).valid_until_utc = req.valid_until_utc
    ∧ (req.notes = none → (carriedStrategy req old newId).notes = old.notes)
    ∧ (∀ t ∈ old.valid_until_utc, t ≤ now →
        (∀ l, updateStrategy req now newId sts ≠ .ok l) ∧
        runUpdateStrategy req now newId sts = sts) := by
  have hexp_of_active : (∀ t ∈ old.valid_until_utc, now < t) →
      strategyExpired old now = false := by
    intro hactive
    cases hv : old.valid_until_utc with
    | none => simp [strategyExpired, hv]
    | some t =>
      have := hactive t (by simp [hv])
      simp [strategyExpired, hv, decide_eq_false (not_le.mpr this)]
  refine ⟨?_, rfl, rfl, rfl, rfl, ?_, ?_, ?_, rfl, rfl, rfl, ?_, ?_, ?_, rfl, ?_, ?_⟩
  · intro hactive
    simp [updateStrategy, hfind, hexp_of_active hactive]
  · intro h; simp [carriedStrategy, h]
  · intro h; simp [carriedStrategy, h]
  · intro h; simp [carriedStrategy, h]
  · intro h; simp [carriedStrategy, h]
  · intro h; simp [carriedStrategy, h]
  · intro h; simp [carriedStrategy, h]
  · intro h; simp [carriedStrategy, h]
  · intro t hv hle
    have hexp : strategyExpired old now = true := by
      simp [strategyExpired]
      cases hv2 : old.valid_until_utc with
      | none => rw [hv2] at hv; simp at hv
      | some u =>
        rw [hv2] at hv
        simp at hv
        subst hv
        simpa using hle
    constructor
    · intro l
      simp [updateStrategy, hfind, hexp]
    · simp [runUpdateStrategy, updateStrategy, hfind, hexp]

/-- **C8 witness** — the amended theorem applied to `sampleStrategy`: an
update at time 50 with fresh id 2 and an empty request yields exactly the
expired old row plus the carried-forward new row with indefinite validity. -/
theorem update_strategy_immutable_versioning_witness :
    updateStrategy emptyUpdateRequest 50 2 [sampleStrategy] =
      .ok [{ sampleStrategy with valid_until_utc := some 50 },
           { sampleStrategy with strategy_id := 2, valid_until_utc := none }] := by
  have h := (update_strategy_immutable_versioning [sampleStrategy]
    emptyUpdateRequest 50 2 sampleStrategy (by rfl)).1
    (by intro t ht; simp [sampleStrategy] at ht; omega)
  rw [h]
  simp [carriedStrategy, emptyUpdateRequest, sampleStrategy]

/-- **C2** — Placing a non-crossing BUY of size `s` at price `p` (limit price
strictly below the ask, sufficient balance) immediately debits exactly `p×s`
and creates an OPEN order; cancelling that order credits back exactly `p×s`
and sets CANCELLED, so the balance after place-then-cancel equals the balance
before placement; and an order can never be both filled and refunded: a FILLED
order cannot be cancelled, and a CANCELLED order is never touched by the batch
processor. -/
theorem buy_reservation_roundtrip (s : LedgerState)
    (req : PlaceLimitOrderRequest) (market : ℚ)
    (hside : req.side = OrderSide.BUY)
    (hncross : req.price < market)
    (hbal : req.price * (req.size : ℚ) ≤ s.balance)
    (hfresh : ∀ o ∈ s.orders, o.order_id ≠ s.next_order_id) :
    placeLimitOrder req market s =
      .ok ({ order_id := some s.next_order_id, status := "open" },
        { s with
          balance := s.balance - req.price * (req.size : ℚ),
          orders := s.orders ++
            [{ order_id := s.next_order_id, price := req.price, size := req.size,
               side := .BUY, token_id := req.token_id, status := .OPEN }],
          next_order_id := s.next_order_id + 1 })
    ∧ cancelOrder s.next_order_id
        { s with
          balance := s.balance - req.price * (req.size : ℚ),
          orders := s.orders ++
            [{ order_id := s.next_order_id, price := req.price, size := req.size,
               side := .BUY, token_id := req.token_id, status := .OPEN }],
          next_order_id := s.next_order_id + 1 }
      = .ok
        { s with
          balance := s.balance,
          orders := s.orders ++
            [{ order_id := s.next_order_id, price := req.price, size := req.size,
               side := .BUY, token_id := req.token_id, status := .CANCELLED }],
          next_order_id := s.next_order_id + 1 }
    ∧ (∀ (s3 : LedgerState) (o : Order),
        (s3.orders.map (fun o2 => o2.order_id)).Nodup →
        o ∈ s3.orders → o.status = OrderStatus.FILLED →
        ∀ s4, cancelOrder o.order_id s3 ≠ .ok s4)
    ∧ (∀ (s3 : LedgerState) (o : Order),
        (s3.orders.map (fun o2 => o2.order_id)).Nodup →
        o ∈ s3.orders → o.status = OrderStatus.CANCELLED →
        ∀ (quotes : Quotes) (o' : Order),
          o' ∈ (processOpenOrders quotes s3).1.orders →
          o'.order_id = o.order_id → o' = o) := by
  have hfind0 : s.orders.find?
      (fun o2 => o2.order_id == s.next_order_id) = none := by
    rw [List.find?_eq_none]
    intro o ho
    simpa using hfresh o ho
  refine ⟨?_, ?_, ?_, ?_⟩
  · simp [placeLimitOrder, hside, handleBuyOrder, not_lt.mpr hbal,
      not_le.mpr hncross]
  · have hfind : ((s.orders ++
        [{ order_id := s.next_order_id, price := req.price, size := req.size,
           side := .BUY, token_id := req.token_id,
           status := OrderStatus.OPEN }] : List Order)).find?
        (fun o2 => o2.order_id == s.next_order_id)
        = some { order_id := s.next_order_id, price := req.price,
                 size := req.size, side := .BUY, token_id := req.token_id,
                 status := OrderStatus.OPEN } := by
      rw [List.find?_append, hfind0]
      simp [List.find?]
    unfold cancelOrder
    rw [hfind]
    simp only [ne_eq, not_true_eq_false, if_false, reduceCtorEq]
    simp only [Except.ok.injEq, LedgerState.mk.injEq]
    refine ⟨by ring, trivial, ?_, trivial, trivial, trivial⟩
    · rw [List.map_append]
      congr 1
      · conv_rhs => rw [← List.map_id s.orders]
        apply List.map_congr_left
        intro o ho
        simp [hfresh o ho]
      · simp
  · intro s3 o hnodup hmem hfilled s4 h
    unfold cancelOrder at h
    split at h
    · simp at h
    · rename_i o2 hfind2
      rw [find?_by_id_eq s3.orders hnodup hmem] at hfind2
      injection hfind2 with ho2
      subst ho2
      split at h
      · simp at h
      · rename_i hst
        have hopen := not_not.mp hst
        rw [hopen] at hfilled
        simp at hfilled
  · intro s3 o hnodup hmem hcanc quotes o' hmem' hid
    have hO := (processOpenOrders_spec quotes s3 hnodup).1
    rw [hO] at hmem'
    obtain ⟨o2, ho2, rfl⟩ := List.mem_map.mp hmem'
    by_cases hc : o2.status = OrderStatus.OPEN ∧ eligibleFill quotes o2 = true
    · rw [if_pos hc] at hid ⊢
      have ho2eq : o2 = o := order_eq_of_mem_of_id s3.orders hnodup ho2 hmem hid
      subst ho2eq
      exact absurd hcanc (by rw [hc.1]; simp)
    · rw [if_neg hc] at hid ⊢
      exact order_eq_of_mem_of_id s3.orders hnodup ho2 hmem hid

/-- **C2 witness** — a fresh account places a non-crossing BUY of 10 @ 0.40
(ask 0.50): balance drops to 9996.00 with an OPEN order; cancelling order 0
restores balance 10000.00 exactly and marks the order CANCELLED. -/
theorem buy_reservation_roundtrip_witness :
    placeLimitOrder { price := 4/10, size := 10, side := .BUY, token_id := "T1" }
        (1/2) freshAccountState =
      .ok ({ order_id := some 0, status := "open" },
        { balance := 9996, positions := [],
          orders := [{ order_id := 0, price := 4/10, size := 10, side := .BUY,
                       token_id := "T1", status := .OPEN }],
          transactions := [], snapshots := [], next_order_id := 1 })
    ∧ cancelOrder 0
        { balance := 9996, positions := [],
          orders := [{ order_id := 0, price := 4/10, size := 10, side := .BUY,
                       token_id := "T1", status := .OPEN }],
          transactions := [], snapshots := [], next_order_id := 1 }
      = .ok
        { balance := 10000, positions := [],
          orders := [{ order_id := 0, price := 4/10, size := 10, side := .BUY,
                       token_id := "T1", status := .CANCELLED }],
          transactions := [], snapshots := [], next_order_id := 1 } := by
  obtain ⟨h1, h2, -, -⟩ := buy_reservation_roundtrip freshAccountState
    { price := 4/10, size := 10, side := .BUY, token_id := "T1" } (1/2)
    rfl (by norm_num) (by norm_num [freshAccountState])
    (by intro o ho; simp [freshAccountState] at ho)
  constructor
  · rw [h1]
    norm_num [freshAccountState]
  · have h2' := h2
    norm_num [freshAccountState] at h2'
    norm_num
    exact h2'

/-- **C6** — An order's status only ever transitions OPEN→FILLED (batch fill)
or OPEN→CANCELLED (cancellation): cancelling a non-OPEN order returns an error
and leaves all state unchanged (no refund is applied); a successful
cancellation requires the order to be OPEN and only sets it CANCELLED; the
batch processor only turns OPEN orders FILLED; and placement never modifies an
existing order, appending at most one new OPEN order. -/
theorem order_lifecycle_transitions (s : LedgerState) :
    (∀ (oid : ℕ) (o : Order),
      s.orders.find? (fun o2 => o2.order_id == oid) = some o →
      o.status ≠ OrderStatus.OPEN →
      (∀ s2, cancelOrder oid s ≠ .ok s2) ∧ runCancelOrder oid s = s)
    ∧ (∀ (oid : ℕ) (s2 : LedgerState), cancelOrder oid s = .ok s2 →
        ∃ o, s.orders.find? (fun o2 => o2.order_id == oid) = some o ∧
          o.status = OrderStatus.OPEN ∧
          s2.orders = s.orders.map (fun o2 =>
            if o2.order_id == oid then { o2 with status := OrderStatus.CANCELLED }
            else o2))
    ∧ (∀ quotes : Quotes, (s.orders.map (fun o => o.order_id)).Nodup →
        (processOpenOrders quotes s).1.orders
          = s.orders.map (fun o =>
              if o.status = OrderStatus.OPEN ∧ eligibleFill quotes o = true then
                { o with status := OrderStatus.FILLED }
              else o))
    ∧ (∀ (req : PlaceLimitOrderRequest) (market : ℚ)
        (resp : PlaceLimitOrderResponse) (s' : LedgerState),
        placeLimitOrder req market s = .ok (resp, s') →
        s'.orders = s.orders ∨
          ∃ newOrder, s'.orders = s.orders ++ [newOrder] ∧
            newOrder.status = OrderStatus.OPEN) := by
  refine ⟨?_, ?_, ?_, ?_⟩
  · intro oid o hfind hst
    have herr : cancelOrder oid s
        = .error "Cannot cancel order: only OPEN orders can be cancelled" := by
      unfold cancelOrder
      rw [hfind]
      simp [hst]
    constructor
    · intro s2 h
      rw [herr] at h
      simp at h
    · unfold runCancelOrder
      rw [herr]
  · intro oid s2 h
    unfold cancelOrder at h
    split at h
    · simp at h
    · rename_i o hfind
      split at h
      · simp at h
      · rename_i hst
        have hopen : o.status = OrderStatus.OPEN := not_not.mp hst
        refine ⟨o, hfind, hopen, ?_⟩
        simp only [Except.ok.injEq] at h
        subst h
        cases hside : o.side
        case BUY => rfl
        case SELL =>
          cases hl : lookupTok s.positions o.token_id <;> rfl
  · intro quotes hnodup
    exact (processOpenOrders_spec quotes s hnodup).1
  · intro req market resp s' h
    cases hside : req.side
    case BUY =>
      simp only [placeLimitOrder, hside, handleBuyOrder] at h
      split at h
      · simp at h
      · split at h
        · simp only [Except.ok.injEq, Prod.mk.injEq] at h
          obtain ⟨-, hs'⟩ := h
          subst hs'
          exact Or.inl rfl
        · simp only [Except.ok.injEq, Prod.mk.injEq] at h
          obtain ⟨-, hs'⟩ := h
          subst hs'
          exact Or.inr ⟨_, rfl, rfl⟩
    case SELL =>
      simp only [placeLimitOrder, hside, handleSellOrder] at h
      split at h
      · simp at h
      · split at h
        · simp at h
        · split at h
          · simp only [Except.ok.injEq, Prod.mk.injEq] at h
            obtain ⟨-, hs'⟩ := h
            subst hs'
            exact Or.inl rfl
          · simp only [Except.ok.injEq, Prod.mk.injEq] at h
            obtain ⟨-, hs'⟩ := h
            subst hs'
            exact Or.inr ⟨_, rfl, rfl⟩

/-- An account with a single FILLED order, to exercise the cancel guard. -/
def filledOrderState : LedgerState :=
  { balance := 50, positions := [],
    orders := [{ order_id := 7, price := 1/2, size := 2, side := .BUY,
                 token_id := "T1", status := .FILLED }],
    transactions := [{ token_id := "T1", execution_price := 1/2, side := .BUY,
                       size := 2 }],
    snapshots := [], next_order_id := 8 }

/-- **C6 witness** — cancelling the FILLED order errors and changes nothing:
no refund is applied and the state is returned untouched. -/
theorem order_lifecycle_transitions_witness :
    cancelOrder 7 filledOrderState ≠ .ok filledOrderState ∧
    runCancelOrder 7 filledOrderState = filledOrderState := by
  have h := (order_lifecycle_transitions filledOrderState).1 7
    { order_id := 7, price := 1/2, size := 2, side := .BUY,
      token_id := "T1", status := .FILLED }
    (by norm_num [filledOrderState, List.find?]) (by simp)
  exact ⟨h.1 filledOrderState, h.2⟩

/-- **C10** — Reserving for a non-crossing order mutates the balance (BUY) or
the position's shares (SELL) without appending any Transaction, so an account
whose audit is currently consistent audits as inconsistent right after the
placement: for a BUY the balance_difference equals minus the reserved notional
`price × size`; for a SELL the live shares fall short of the replayed shares
by exactly the reserved size. -/
theorem reservation_creates_audit_discrepancy (s : LedgerState)
    (req : PlaceLimitOrderRequest) (market : ℚ)
    (hcons : (auditAccount s).is_consistent = true)
    (hsize : 0 < req.size) :
    (req.side = OrderSide.BUY → 0 < req.price → req.price < market →
      ∀ resp s', placeLimitOrder req market s = .ok (resp, s') →
        s'.transactions = s.transactions ∧
        s'.balance = s.balance - req.price * (req.size : ℚ) ∧
        (auditAccount s').balance_difference = -(req.price * (req.size : ℚ)) ∧
        (auditAccount s').is_consistent = false)
    ∧ (req.side = OrderSide.SELL → market < req.price →
        ∀ resp s', placeLimitOrder req market s = .ok (resp, s') →
          s'.transactions = s.transactions ∧
          actualShares s' req.token_id
            = specNetShares s'.transactions req.token_id - req.size ∧
          (auditAccount s').is_consistent = false) := by
  obtain ⟨hbal, hsh⟩ := (audit_consistent_iff s).mp hcons
  constructor
  · intro hside hp hlt resp s' hok
    simp only [placeLimitOrder, hside, handleBuyOrder] at hok
    split at hok
    · simp at hok
    · split at hok
      · exact absurd (by assumption) (not_le.mpr hlt)
      · simp only [Except.ok.injEq, Prod.mk.injEq] at hok
        obtain ⟨hresp, hs'⟩ := hok
        subst hs'
        refine ⟨rfl, rfl, ?_, ?_⟩
        · rw [audit_balance_difference]
          show s.balance - req.price * (req.size : ℚ)
              - (INITIAL_BALANCE + specNetCash s.transactions) = _
          rw [← hbal]
          ring
        · by_contra hne
          rw [Bool.not_eq_false] at hne
          obtain ⟨hb2, _⟩ := (audit_consistent_iff _).mp hne
          have hb3 : s.balance - req.price * (req.size : ℚ)
              = INITIAL_BALANCE + specNetCash s.transactions := hb2
          have hq : (0 : ℚ) < req.price * (req.size : ℚ) :=
            mul_pos hp (by exact_mod_cast hsize)
          rw [← hbal] at hb3
          linarith
  · intro hside hlt resp s' hok
    simp only [placeLimitOrder, hside, handleSellOrder] at hok
    split at hok
    · simp at hok
    · rename_i position hlook
      split at hok
      · simp at hok
      · split at hok
        · exact absurd (by assumption) (not_le.mpr hlt)
        · simp only [Except.ok.injEq, Prod.mk.injEq] at hok
          obtain ⟨hresp, hs'⟩ := hok
          subst hs'
          have hact' : actualShares
              { s with
                positions := setTok s.positions req.token_id
                  { position with shares := position.shares - req.size },
                orders := s.orders ++
                  [{ order_id := s.next_order_id, price := req.price,
                     size := req.size, side := .SELL,
                     token_id := req.token_id, status := .OPEN }],
                next_order_id := s.next_order_id + 1 } req.token_id
              = position.shares - req.size := by
            unfold actualShares
            rw [lookupTok_setTok_self]
          have hacts : actualShares s req.token_id = position.shares := by
            unfold actualShares
            rw [hlook]
          refine ⟨rfl, ?_, ?_⟩
          · rw [hact']
            have : specNetShares s.transactions req.token_id
                = position.shares := by
              rw [← hsh req.token_id, hacts]
            rw [show ({ s with
                positions := setTok s.positions req.token_id
                  { position with shares := position.shares - req.size },
                orders := s.orders ++
                  [{ order_id := s.next_order_id, price := req.price,
                     size := req.size, side := .SELL,
                     token_id := req.token_id, status := .OPEN }],
                next_order_id := s.next_order_id + 1 } : LedgerState).transactions
                = s.transactions from rfl, this]
          · by_contra hne
            rw [Bool.not_eq_false] at hne
            obtain ⟨_, hsh2⟩ := (audit_consistent_iff _).mp hne
            have h1 := hsh2 req.token_id
            rw [hact'] at h1
            have h2 : specNetShares s.transactions req.token_id
                = position.shares := by
              rw [← hsh req.token_id, hacts]
            have h3 : position.shares - req.size = position.shares := by
              rw [h1]
              exact h2
            omega

/-- **C10 witness** — a fresh, consistent account places a non-crossing BUY of
10 shares at 0.40 with ask 0.50: before the placement the audit is consistent
and afterwards it reports balance_difference −4.00 and is_consistent false. -/
theorem reservation_creates_audit_discrepancy_witness :
    (auditAccount freshAccountState).is_consistent = true ∧
    (placeLimitOrder { price := 4/10, size := 10, side := .BUY, token_id := "T1" }
        (1/2) freshAccountState).map
      (fun r => ((auditAccount r.2).balance_difference,
                 (auditAccount r.2).is_consistent))
      = .ok (-4, false) := by
  have hcons : (auditAccount freshAccountState).is_consistent = true := by
    norm_num [auditAccount, freshAccountState, INITIAL_BALANCE, lookupTok]
  refine ⟨hcons, ?_⟩
  have hok : placeLimitOrder
      { price := 4/10, size := 10, side := .BUY, token_id := "T1" }
      (1/2) freshAccountState =
      .ok ({ order_id := some 0, status := "open" },
        { balance := 9996, positions := [],
          orders := [{ order_id := 0, price := 4/10, size := 10, side := .BUY,
                       token_id := "T1", status := .OPEN }],
          transactions := [], snapshots := [], next_order_id := 1 }) := by
    norm_num [placeLimitOrder, handleBuyOrder, freshAccountState]
  have h := (reservation_creates_audit_discrepancy freshAccountState
    { price := 4/10, size := 10, side := .BUY, token_id := "T1" }
    (1/2) hcons (by norm_num)).1 rfl (by norm_num) (by norm_num)
    _ _ hok
  rw [hok]
  simp only [Except.map]
  rw [h.2.2.1, h.2.2.2]
  norm_num [freshAccountState]

/-- **C5** — A BUY limit order whose limit price ≥ the current ask fills
immediately at the ask: the placement reports "filled", the balance decreases
by ask × size (not limit × size), the position gains `size` shares and
ask × size of cost basis, exactly one Transaction with execution price = ask
is appended, and no resting order is created.  (The source creates no Order
row at all on an immediate fill; "marked FILLED" is realised as the response
status "filled" with no open order left behind.) -/
theorem buy_crossing_fills_at_market_price (req : PlaceLimitOrderRequest)
    (market : ℚ) (s : LedgerState)
    (hside : req.side = OrderSide.BUY)
    (hcross : market ≤ req.price)
    (hbal : req.price * (req.size : ℚ) ≤ s.balance) :
    placeLimitOrder req market s =
      .ok ({ transaction_id := some s.transactions.length, status := "filled" },
        { s with
          balance := s.balance - market * (req.size : ℚ),
          positions := setTok s.positions req.token_id
            { shares := (getOrCreatePosition s req.token_id).shares + req.size,
              total_cost := (getOrCreatePosition s req.token_id).total_cost
                + market * (req.size : ℚ) },
          transactions := s.transactions ++
            [{ token_id := req.token_id, execution_price := market,
               side := .BUY, size := req.size }] }) := by
  simp [placeLimitOrder, hside, handleBuyOrder, not_lt.mpr hbal, hcross]

/-- **C5 witness** — from balance 10000.00, a BUY of 100 shares at limit 0.50
with ask 0.45 fills immediately: balance 9955.00, position 100 shares with
cost 45.00, one BUY transaction at 0.45. -/
theorem buy_crossing_fills_at_market_price_witness :
    placeLimitOrder
        { price := 1/2, size := 100, side := .BUY, token_id := "T1" }
        (45/100) freshAccountState =
      .ok ({ transaction_id := some 0, status := "filled" },
        { balance := 9955,
          positions := [("T1", { shares := 100, total_cost := 45 })],
          orders := [],
          transactions := [{ token_id := "T1", execution_price := 45/100,
                             side := .BUY, size := 100 }],
          snapshots := [], next_order_id := 0 }) := by
  have h := buy_crossing_fills_at_market_price
    { price := 1/2, size := 100, side := .BUY, token_id := "T1" }
    (45/100) freshAccountState rfl (by norm_num) (by norm_num [freshAccountState])
  rw [h]
  norm_num [freshAccountState, getOrCreatePosition, lookupTok, setTok]

/-- **C1** — Selling `k = 1` of `n = 2` shares with total cost `C = 1.00`:
the immediate-fill path removes proportional cost basis (remaining cost 0.50 =
C × (n−k)/n), but when the same sell rests as an OPEN order (limit 0.90 > bid
0.50) and is later filled by the batch processor (bid 0.95 ≥ 0.90), the
position afterwards holds 1 share with cost basis still 1.00 — the resting
path removes NO cost basis, contradicting the proportional-cost invariant. -/
theorem sell_resting_fill_keeps_full_cost_basis :
    (placeLimitOrder { price := 1/2, size := 1, side := .SELL, token_id := "tok" }
        (1/2) twoShareState).map (fun r => lookupTok r.2.positions "tok")
      = .ok (some { shares := 1, total_cost := 1/2 })
    ∧ placeLimitOrder { price := 9/10, size := 1, side := .SELL, token_id := "tok" }
        (1/2) twoShareState
      = .ok ({ order_id := some 0, status := "open" }, restingSellState)
    ∧ lookupTok (processOpenOrders tokBidQuotes restingSellState).1.positions "tok"
      = some { shares := 1, total_cost := 1 } := by
  refine ⟨?_, ?_, ?_⟩
  · norm_num [placeLimitOrder, handleSellOrder, twoShareState, lookupTok, setTok,
      Except.map, List.find?]
  · norm_num [placeLimitOrder, handleSellOrder, twoShareState, restingSellState,
      lookupTok, setTok]
  · norm_num [processOpenOrders, processLoop, processOneOpenOrder,
      fillOrderAtLimitPrice, restingSellState, tokBidQuotes, lookupTok, setTok]

/-- **C3 counterexample** — In the Kalshi batch processor
(`process_kalshi_orders_handler`), an OPEN unexpired LIMIT BUY at 50¢ with
current ask 40¢ ≤ 50¢ is price-eligible, yet with insufficient balance the
processor sets it CANCELLED instead of leaving it OPEN or filling it — the
batch processor does set orders to CANCELLED, refuting the claim as stated. -/
theorem kalshi_batch_processor_cancels_order :
    (processKalshiOrders 0 kalshiMarketMap kalshiZeroBalanceState).orders.map
        (fun o => o.status)
      = [KalshiOrderStatus.CANCELLED] := by
  norm_num [processKalshiOrders, processOneKalshiOrder, fillKalshiOrder,
    kalshiZeroBalanceState, kalshiMarketMap, lookupTok, setTok]

end PolyTrader
